import Mathlib

/-!
Shallow embedding of the HexyoGlobal real-time state-synchronization
program (src/server.js: a WebSocket authority process plus the client
script concatenated after it).

Server side: the authoritative field-to-value mapping `currentData`, the
`clients` registry (a set of connection handles, modelled as a duplicate-free
list of numeric ids), the `broadcast` fan-out, and the per-event handlers of
the `wss` connection/message/close/error callbacks.

Client side: the display elements (one per `data-field`), the
`initial_state` and `update` branches of `ws.onmessage`, the `finishEditing`
commit routine, and the dblclick/Escape edit gestures sharing the single
client-global `originalEditValue` variable.

Connections are opaque handles compared by identity in the source
(`client !== sender`); they are modelled as natural numbers. A connection's
`readyState` is read from the environment at the moment the handler runs, so
it is passed in as a function from connection id to readyState code.
-/

/-- WebSocket.OPEN readyState code (the ws library constant). -/
def wsOPEN : Nat := 1

/-- The initial in-memory data state of server.js (`currentData`), an object
with the two fields `amount` and `name`. Modelled as an association list so
that the key set is explicit. -/
def initialData : List (String × String) :=
  [("amount", "LOADING..."), ("name", "LOADING...")]

/-- JavaScript `currentData.hasOwnProperty(field)`: does `field` occur as a
key of the object? -/
def hasOwnProperty (data : List (String × String)) (field : String) : Bool :=
  data.any (fun kv => kv.1 == field)

/-- JavaScript `currentData[field] = value` on an existing key: replace the
value stored at `field`, leaving every other binding alone. (The handler
only executes this assignment after `hasOwnProperty` succeeded, so no key is
ever created.) -/
def setField (data : List (String × String)) (field value : String) :
    List (String × String) :=
  data.map (fun kv => if kv.1 == field then (kv.1, value) else kv)

/-- Read the value stored at `field` (used to state properties; the source
reads `currentData[field]` implicitly when serializing the snapshot). -/
def lookupField (data : List (String × String)) (field : String) : Option String :=
  (data.find? (fun kv => kv.1 == field)).map Prod.snd

/-- The two wire message shapes produced by the server
(`JSON.stringify({type: ..., payload: ...})`). -/
inductive WireMsg where
  | initialState (payload : List (String × String))
  | update (field value : String)
deriving DecidableEq, Repr

/-- `clients.add(ws)`: a JS `Set` add, a no-op when already present. -/
def addClient (cs : List Nat) (c : Nat) : List Nat :=
  if cs.contains c then cs else cs ++ [c]

/-- `clients.delete(ws)`: remove the element from the set. -/
def removeClient (cs : List Nat) (c : Nat) : List Nat :=
  cs.filter (fun x => x ≠ c)

/-- The body of `broadcast` in server.js: iterate over the `clients` set;
for each `client`,
* if `client !== sender && client.readyState === WebSocket.OPEN`, send the
  (once-serialized) message to it and keep it registered;
* else if `client === sender`, skip it (and keep it registered);
* else (a non-sender whose readyState is not OPEN) remove it from the set.
Returns the clients set after the loop together with the list of
(connection, message) deliveries in iteration order. Serialization of `msg`
to its JSON string happens once before the loop in the source; the string
itself is not modelled, so each delivery carries the one message value. -/
def broadcastGo (msg : WireMsg) (rs : Nat → Nat) (sender : Option Nat) :
    List Nat → List Nat × List (Nat × WireMsg)
  | [] => ([], [])
  | c :: cs =>
    if some c ≠ sender ∧ rs c = wsOPEN then
      (c :: (broadcastGo msg rs sender cs).1,
       (c, msg) :: (broadcastGo msg rs sender cs).2)
    else if some c = sender then
      (c :: (broadcastGo msg rs sender cs).1, (broadcastGo msg rs sender cs).2)
    else
      broadcastGo msg rs sender cs

/-- `broadcast(message, sender = null)` of server.js, acting on the clients
set `cs` with the connections' readyStates given by `rs`. -/
def broadcast (msg : WireMsg) (cs : List Nat) (rs : Nat → Nat)
    (sender : Option Nat) : List Nat × List (Nat × WireMsg) :=
  broadcastGo msg rs sender cs

/-- The authority's state: the `currentData` object and the `clients` set. -/
structure ServerState where
  currentData : List (String × String)
  clients : List Nat
deriving DecidableEq, Repr

/-- Server state at process start. -/
def initialServerState : ServerState :=
  { currentData := initialData, clients := [] }

/-- Result of `JSON.parse` plus the shape test
`parsedMessage.type === 'update' && parsedMessage.payload` in the message
handler: either the parse threw (`malformed`), or the parsed value fails the
update-with-payload shape test (`other`), or it is an update carrying the
(string-coerced) `field` and `value` of its payload. -/
inductive ParsedMsg where
  | malformed
  | other
  | update (field value : String)
deriving DecidableEq, Repr

/-- Observable outputs of one event handler run: a direct `ws.send` to one
connection, or a call to `broadcast` with the given message and excluded
sender. -/
inductive OutEvent where
  | sendTo (c : Nat) (m : WireMsg)
  | broadcastCall (m : WireMsg) (sender : Option Nat)
deriving DecidableEq, Repr

/-- External events driving the authority's single-threaded timeline:
a new connection (with the outcome of the initial-state `ws.send` attempt),
a message from a connection (with the readyState environment at that
moment), a close event, or an error event. -/
inductive SEvent where
  | connect (ws : Nat) (sendOk : Bool)
  | message (ws : Nat) (rs : Nat → Nat) (m : ParsedMsg)
  | close (ws : Nat)
  | error (ws : Nat)

/-- The `wss.on('connection')` handler: `clients.add(ws)` then try to send
`{type:'initial_state', payload: currentData}` to the new client. The catch
block only logs — whether the send succeeds (`sendOk`) changes nothing in
the state, and in particular the connection stays registered. -/
def handleConnection (s : ServerState) (ws : Nat) (_sendOk : Bool) :
    ServerState × List OutEvent :=
  ({ s with clients := addClient s.clients ws },
   [OutEvent.sendTo ws (WireMsg.initialState s.currentData)])

/-- The `ws.on('message')` handler body: on parse failure or a non-update
shape, only log; on `update {field, value}`, if `currentData` has the field,
assign it and broadcast the update to all clients excluding the sender,
otherwise warn and do nothing. -/
def handleMessage (s : ServerState) (ws : Nat) (rs : Nat → Nat)
    (m : ParsedMsg) : ServerState × List OutEvent :=
  match m with
  | ParsedMsg.malformed => (s, [])
  | ParsedMsg.other => (s, [])
  | ParsedMsg.update field value =>
    if hasOwnProperty s.currentData field then
      ({ currentData := setField s.currentData field value,
         clients := (broadcast (WireMsg.update field value) s.clients rs (some ws)).1 },
       [OutEvent.broadcastCall (WireMsg.update field value) (some ws)])
    else
      (s, [])

/-- The `ws.on('close')` handler: `clients.delete(ws)`. -/
def handleClose (s : ServerState) (ws : Nat) : ServerState × List OutEvent :=
  ({ s with clients := removeClient s.clients ws }, [])

/-- The `ws.on('error')` handler: `clients.delete(ws); ws.close()` (the
close of the underlying channel has no further effect on server state). -/
def handleError (s : ServerState) (ws : Nat) : ServerState × List OutEvent :=
  ({ s with clients := removeClient s.clients ws }, [])

/-- Dispatch one external event to its handler. -/
def stepServer (s : ServerState) : SEvent → ServerState × List OutEvent
  | SEvent.connect ws ok => handleConnection s ws ok
  | SEvent.message ws rs m => handleMessage s ws rs m
  | SEvent.close ws => handleClose s ws
  | SEvent.error ws => handleError s ws

/-- Process a sequence of events on the single sequential timeline,
concatenating the outputs in order. -/
def runServer (s : ServerState) : List SEvent → ServerState × List OutEvent
  | [] => (s, [])
  | e :: evs =>
    ((runServer (stepServer s e).1 evs).1,
     (stepServer s e).2 ++ (runServer (stepServer s e).1 evs).2)

/-!
Client side. Each `.info-card__content[data-field]` element is a
`FieldElem`: its `data-field` name, its displayed `textContent`, and whether
its `contenteditable` attribute is currently `'true'`. `querySelector`
returns the first element whose `data-field` matches, so the element-update
helpers act on the first match of the list.
-/

/-- One editable display element of the page. -/
structure FieldElem where
  field : String
  text : String
  editable : Bool
deriving DecidableEq, Repr

/-- The whole client-side mutable state: the display elements, the single
client-global `originalEditValue` variable shared by every field, and
whether the WebSocket is currently open (`ws && ws.readyState === OPEN`). -/
structure ClientState where
  elems : List FieldElem
  originalEditValue : String
  wsOpen : Bool
deriving DecidableEq, Repr

/-- `document.querySelector('.info-card__content[data-field=f]')`: the first
element bound to `f`, if any. -/
def lookupElem (elems : List FieldElem) (f : String) : Option FieldElem :=
  elems.find? (fun e => e.field == f)

/-- Apply `g` to the first element bound to `f` (what a mutation through the
`querySelector` result does to the document). -/
def updateFirst (g : FieldElem → FieldElem) :
    List FieldElem → String → List FieldElem
  | [], _ => []
  | e :: es, f => if e.field == f then g e :: es else e :: updateFirst g es f

/-- The `initial_state` branch of `ws.onmessage`: for every (field, value)
entry of the payload, look the element up and write `value` into its
`textContent` unconditionally (no contenteditable check). -/
def applyInitialState (elems : List FieldElem)
    (payload : List (String × String)) : List FieldElem :=
  payload.foldl
    (fun es kv => updateFirst (fun e => { e with text := kv.2 }) es kv.1)
    elems

/-- The `update` branch of `ws.onmessage`: look the element up; if it
exists, overwrite its `textContent` with `value` only when the current text
differs from `value` and the element is not contenteditable. -/
def applyUpdate (elems : List FieldElem) (f v : String) : List FieldElem :=
  updateFirst
    (fun e => if e.text ≠ v ∧ e.editable = false then { e with text := v } else e)
    elems f

/-- JavaScript `String.prototype.trim`: strip leading and trailing
whitespace characters. -/
def jsTrim (s : String) : String :=
  ⟨((s.data.dropWhile Char.isWhitespace).reverse.dropWhile Char.isWhitespace).reverse⟩

/-- Result of one `finishEditing` call on an element: the element's new
text and contenteditable flag, and the update message sent on the wire, if
any (as its payload's field and value). -/
structure FinishResult where
  text : String
  editable : Bool
  sent : Option (String × String)
deriving DecidableEq, Repr

/-- `finishEditing(element)` of the client script, given the element's
field, current text and contenteditable flag, the current global
`originalEditValue`, and whether the WebSocket is open. Guard: a
non-editable element is left untouched. Otherwise contenteditable is
revoked, `newValue = element.textContent.trim()` is read, and:
* if `newValue` is empty or equals `originalEditValue`, the text reverts to
  `originalEditValue` and nothing is sent;
* else if the socket is open, `update {field, value: newValue}` is sent and
  the text is left as typed;
* else the text reverts to `originalEditValue` and nothing is sent. -/
def finishEditing (field text : String) (editable : Bool)
    (originalEditValue : String) (wsOpen : Bool) : FinishResult :=
  if editable = false then
    { text := text, editable := editable, sent := none }
  else
    let newValue := jsTrim text
    if newValue = "" ∨ newValue = originalEditValue then
      { text := originalEditValue, editable := false, sent := none }
    else if wsOpen then
      { text := text, editable := false, sent := some (field, newValue) }
    else
      { text := originalEditValue, editable := false, sent := none }

/-- User gestures and edit-lifecycle events on the client. -/
inductive CEvent where
  | dblclick (f : String)
  | escape (f : String)
  | commit (f : String)

/-- The dblclick listener: refuse when the element is already editable or
the socket is not open; otherwise capture the global
`originalEditValue := element.textContent` and set contenteditable. -/
def startEdit (s : ClientState) (f : String) : ClientState :=
  match lookupElem s.elems f with
  | none => s
  | some e =>
    if e.editable = true ∨ s.wsOpen = false then s
    else
      { s with
        originalEditValue := e.text,
        elems := updateFirst (fun x => { x with editable := true }) s.elems f }

/-- The Escape branch of the keydown listener: restore
`element.textContent := originalEditValue` and revoke contenteditable. The
listener only fires while the element holds focus, i.e. while it is
editable. -/
def cancelEdit (s : ClientState) (f : String) : ClientState :=
  match lookupElem s.elems f with
  | none => s
  | some e =>
    if e.editable = true then
      { s with
        elems :=
          updateFirst
            (fun x => { x with text := s.originalEditValue, editable := false })
            s.elems f }
    else s

/-- A commit gesture (Enter, or the delayed blur): run `finishEditing` on
the element and store its text/contenteditable outcome back. The sent
message, if any, goes to the wire and does not change client state. -/
def commitEdit (s : ClientState) (f : String) : ClientState :=
  match lookupElem s.elems f with
  | none => s
  | some e =>
    let r := finishEditing e.field e.text e.editable s.originalEditValue s.wsOpen
    { s with
      elems :=
        updateFirst (fun x => { x with text := r.text, editable := r.editable })
          s.elems f }

/-- Dispatch one client gesture. -/
def stepClient (s : ClientState) : CEvent → ClientState
  | CEvent.dblclick f => startEdit s f
  | CEvent.escape f => cancelEdit s f
  | CEvent.commit f => commitEdit s f

/-- Run a sequence of client gestures. -/
def runClient (s : ClientState) : List CEvent → ClientState
  | [] => s
  | e :: evs => runClient (stepClient s e) evs

/-- One received update request: the originating connection, the readyState
environment at the moment the authority handles it, and the proposed new
value. Used to state the last-write-wins property over a sequence of
updates to one field. -/
structure UpdReq where
  ws : Nat
  rs : Nat → Nat
  val : String

/-- The server event carrying an update request for field `f`. -/
def updEvent (f : String) (u : UpdReq) : SEvent :=
  SEvent.message u.ws u.rs (ParsedMsg.update f u.val)

/-!
Broadcast fan-out lemmas: membership characterizations of the delivery list
and of the surviving clients set.
-/

/-- A pair is delivered by the fan-out loop exactly when its connection is a
registered non-sender that is currently OPEN, and the message is the one
being broadcast. -/
theorem broadcastGo_snd_mem (msg : WireMsg) (rs : Nat → Nat) (sender : Option Nat)
    (cs : List Nat) (c : Nat) (m : WireMsg) :
    (c, m) ∈ (broadcastGo msg rs sender cs).2 ↔
      c ∈ cs ∧ m = msg ∧ some c ≠ sender ∧ rs c = wsOPEN := by
  induction cs with
  | nil => simp [broadcastGo]
  | cons a cs ih =>
    simp only [broadcastGo]
    by_cases h1 : some a ≠ sender ∧ rs a = wsOPEN
    · rw [if_pos h1]
      simp only [List.mem_cons, Prod.mk.injEq, ih]
      constructor
      · rintro (⟨rfl, rfl⟩ | ⟨hc, hm, hd⟩)
        · exact ⟨Or.inl rfl, rfl, h1⟩
        · exact ⟨Or.inr hc, hm, hd⟩
      · rintro ⟨(rfl | hc), hm, hd⟩
        · exact Or.inl ⟨rfl, hm⟩
        · exact Or.inr ⟨hc, hm, hd⟩
    · rw [if_neg h1]
      have hsnd :
          ((if some a = sender then
              (a :: (broadcastGo msg rs sender cs).1, (broadcastGo msg rs sender cs).2)
            else broadcastGo msg rs sender cs)).2 =
            (broadcastGo msg rs sender cs).2 := by
        split <;> rfl
      rw [hsnd, ih]
      simp only [List.mem_cons]
      constructor
      · rintro ⟨hc, hm, hd⟩
        exact ⟨Or.inr hc, hm, hd⟩
      · rintro ⟨(rfl | hc), hm, hd⟩
        · exact absurd ⟨hd.1, hd.2⟩ h1
        · exact ⟨hc, hm, hd⟩

/-- A connection survives the fan-out loop exactly when it was registered
and is either the excluded sender or currently OPEN. -/
theorem broadcastGo_fst_mem (msg : WireMsg) (rs : Nat → Nat) (sender : Option Nat)
    (cs : List Nat) (c : Nat) :
    c ∈ (broadcastGo msg rs sender cs).1 ↔
      c ∈ cs ∧ (some c = sender ∨ rs c = wsOPEN) := by
  induction cs with
  | nil => simp [broadcastGo]
  | cons a cs ih =>
    simp only [broadcastGo]
    by_cases h1 : some a ≠ sender ∧ rs a = wsOPEN
    · rw [if_pos h1]
      simp only [List.mem_cons, ih]
      constructor
      · rintro (rfl | ⟨hc, hd⟩)
        · exact ⟨Or.inl rfl, Or.inr h1.2⟩
        · exact ⟨Or.inr hc, hd⟩
      · rintro ⟨(rfl | hc), hd⟩
        · exact Or.inl rfl
        · exact Or.inr ⟨hc, hd⟩
    · rw [if_neg h1]
      by_cases h2 : some a = sender
      · rw [if_pos h2]
        simp only [List.mem_cons, ih]
        constructor
        · rintro (rfl | ⟨hc, hd⟩)
          · exact ⟨Or.inl rfl, Or.inl h2⟩
          · exact ⟨Or.inr hc, hd⟩
        · rintro ⟨(rfl | hc), hd⟩
          · exact Or.inl rfl
          · exact Or.inr ⟨hc, hd⟩
      · rw [if_neg h2]
        rw [ih]
        simp only [List.mem_cons]
        constructor
        · rintro ⟨hc, hd⟩
          exact ⟨Or.inr hc, hd⟩
        · rintro ⟨(rfl | hc), hd⟩
          · cases hd with
            | inl hs => exact absurd hs h2
            | inr ho => exact absurd ⟨h2, ho⟩ h1
          · exact ⟨hc, hd⟩

/-- C4: `broadcast(msg, excluding=c)` delivers the one serialized message to
every currently-open registered connection other than the excluded sender,
to no closed connection and never to the sender; every non-sender connection
discovered non-OPEN during the broadcast is removed from the registry, so a
subsequent broadcast (with any environment and exclusion) does not target
it. -/
theorem broadcast_fanout_spec (msg : WireMsg) (cs : List Nat) (rs : Nat → Nat)
    (sender : Option Nat) :
    (∀ c m, (c, m) ∈ (broadcast msg cs rs sender).2 ↔
        c ∈ cs ∧ m = msg ∧ some c ≠ sender ∧ rs c = wsOPEN)
    ∧ (∀ c, c ∈ (broadcast msg cs rs sender).1 ↔
        c ∈ cs ∧ (some c = sender ∨ rs c = wsOPEN))
    ∧ (∀ c, c ∈ cs → some c ≠ sender → rs c ≠ wsOPEN →
        c ∉ (broadcast msg cs rs sender).1
        ∧ ∀ msg2 rs2 sender2 m2,
            (c, m2) ∉ (broadcast msg2 (broadcast msg cs rs sender).1 rs2 sender2).2) := by
  refine ⟨fun c m => broadcastGo_snd_mem msg rs sender cs c m,
          fun c => broadcastGo_fst_mem msg rs sender cs c, ?_⟩
  intro c _hc hne hno
  have hnotin : c ∉ (broadcast msg cs rs sender).1 := by
    rw [broadcast, broadcastGo_fst_mem]
    rintro ⟨-, (hs | ho)⟩
    · exact hne hs
    · exact hno ho
  refine ⟨hnotin, ?_⟩
  intro msg2 rs2 sender2 m2 hmem
  rw [broadcast, broadcastGo_snd_mem] at hmem
  exact hnotin hmem.1

/-- C4 witness: with clients {1, 2, 3}, connection 3 closed and sender 1
excluded, the open non-sender 2 receives the message and the closed
connection 3 leaves the registry. -/
theorem broadcast_fanout_spec_witness :
    ((2 : Nat), WireMsg.update "amount" "250") ∈
      (broadcast (WireMsg.update "amount" "250") [1, 2, 3]
        (fun c => if c = 3 then 3 else 1) (some 1)).2
    ∧ (3 : Nat) ∉
      (broadcast (WireMsg.update "amount" "250") [1, 2, 3]
        (fun c => if c = 3 then 3 else 1) (some 1)).1 :=
  ⟨((broadcast_fanout_spec (WireMsg.update "amount" "250") [1, 2, 3]
      (fun c => if c = 3 then 3 else 1) (some 1)).1 2
      (WireMsg.update "amount" "250")).mpr (by decide),
   ((broadcast_fanout_spec (WireMsg.update "amount" "250") [1, 2, 3]
      (fun c => if c = 3 then 3 else 1) (some 1)).2.2 3 (by decide) (by decide)
      (by decide)).1⟩

/-- C10: when the excluded sender is itself not OPEN at broadcast time, it
is skipped but not removed: it receives nothing, and its registry
membership after the broadcast is exactly what it was before. -/
theorem broadcast_excluded_closed (msg : WireMsg) (cs : List Nat)
    (rs : Nat → Nat) (c : Nat) (_hno : rs c ≠ wsOPEN) :
    (∀ m, (c, m) ∉ (broadcast msg cs rs (some c)).2)
    ∧ (c ∈ (broadcast msg cs rs (some c)).1 ↔ c ∈ cs) := by
  constructor
  · intro m hmem
    rw [broadcast, broadcastGo_snd_mem] at hmem
    exact hmem.2.2.1 rfl
  · rw [broadcast, broadcastGo_fst_mem]
    constructor
    · exact fun h => h.1
    · exact fun h => ⟨h, Or.inl rfl⟩

/-- C10 witness: sender 7 is closed (readyState 3); it gets no delivery and
stays registered. -/
theorem broadcast_excluded_closed_witness :
    ((7 : Nat), WireMsg.update "name" "X") ∉
      (broadcast (WireMsg.update "name" "X") [7, 2] (fun _ => 3) (some 7)).2
    ∧ (7 : Nat) ∈
      (broadcast (WireMsg.update "name" "X") [7, 2] (fun _ => 3) (some 7)).1 :=
  ⟨(broadcast_excluded_closed (WireMsg.update "name" "X") [7, 2] (fun _ => 3) 7
      (by decide)).1 (WireMsg.update "name" "X"),
   (broadcast_excluded_closed (WireMsg.update "name" "X") [7, 2] (fun _ => 3) 7
      (by decide)).2.mpr (by decide)⟩

/-!
Store lemmas: `setField` never changes the key set, and writes to an
existing key are visible afterwards.
-/

/-- The key set of the data object is untouched by a field assignment. -/
theorem keys_setField (d : List (String × String)) (f v : String) :
    (setField d f v).map Prod.fst = d.map Prod.fst := by
  induction d with
  | nil => rfl
  | cons kv d ih =>
    simp only [setField, List.map_cons] at ih ⊢
    split <;> simp_all

/-- `hasOwnProperty` only looks at the key set. -/
theorem hasOwnProperty_eq_keys (d : List (String × String)) (f : String) :
    hasOwnProperty d f = (d.map Prod.fst).any (fun k => k == f) := by
  induction d with
  | nil => rfl
  | cons kv d ih => simp [hasOwnProperty, List.any_cons] at ih ⊢; rw [ih]

/-- A field assignment preserves `hasOwnProperty` for every field. -/
theorem hasOwnProperty_setField (d : List (String × String)) (f v g : String) :
    hasOwnProperty (setField d f v) g = hasOwnProperty d g := by
  rw [hasOwnProperty_eq_keys, hasOwnProperty_eq_keys, keys_setField]

/-- Writing an existing field makes the written value the stored one. -/
theorem lookupField_setField_self (d : List (String × String)) (f v : String)
    (h : hasOwnProperty d f = true) :
    lookupField (setField d f v) f = some v := by
  induction d with
  | nil => simp [hasOwnProperty] at h
  | cons kv d ih =>
    by_cases hk : kv.1 = f
    · have hs : setField (kv :: d) f v = (kv.1, v) :: setField d f v := by
        simp only [setField, List.map_cons]
        rw [if_pos (by simp [hk])]
      rw [hs, lookupField, List.find?_cons_of_pos _ (by simpa using hk)]
      rfl
    · have hs : setField (kv :: d) f v = kv :: setField d f v := by
        simp only [setField, List.map_cons]
        rw [if_neg (by simp [hk])]
      have hh : hasOwnProperty d f = true := by
        simpa [hasOwnProperty, hk] using h
      rw [hs, lookupField, List.find?_cons_of_neg _ (by simpa using hk)]
      exact ih hh

/-- One accepted update on a known field: the state mutation and the single
broadcast call, spelled out. -/
theorem stepServer_update_known (s : ServerState) (ws : Nat) (rs : Nat → Nat)
    (f v : String) (hk : hasOwnProperty s.currentData f = true) :
    stepServer s (SEvent.message ws rs (ParsedMsg.update f v)) =
      ({ currentData := setField s.currentData f v,
         clients := (broadcast (WireMsg.update f v) s.clients rs (some ws)).1 },
       [OutEvent.broadcastCall (WireMsg.update f v) (some ws)]) := by
  simp [stepServer, handleMessage, hk]

/-- Processing a sequence of updates to one known field: the outputs are one
broadcast call per update excluding its own sender, and the stored value
ends as the last update's value. -/
theorem runServer_updates (f : String) :
    ∀ (us : List UpdReq) (s : ServerState),
      hasOwnProperty s.currentData f = true →
      (runServer s (us.map (updEvent f))).2 =
          us.map (fun w => OutEvent.broadcastCall (WireMsg.update f w.val) (some w.ws))
      ∧ ∀ u, us.getLast? = some u →
          lookupField (runServer s (us.map (updEvent f))).1.currentData f = some u.val
  | [], s, _hk => by
    refine ⟨rfl, ?_⟩
    intro u hu
    simp at hu
  | u0 :: rest, s, hk => by
    have hk1 : hasOwnProperty (setField s.currentData f u0.val) f = true := by
      rw [hasOwnProperty_setField]; exact hk
    have hstep : stepServer s (updEvent f u0) =
        ({ currentData := setField s.currentData f u0.val,
           clients := (broadcast (WireMsg.update f u0.val) s.clients u0.rs (some u0.ws)).1 },
         [OutEvent.broadcastCall (WireMsg.update f u0.val) (some u0.ws)]) :=
      stepServer_update_known s u0.ws u0.rs f u0.val hk
    have ih := runServer_updates f rest
      { currentData := setField s.currentData f u0.val,
        clients := (broadcast (WireMsg.update f u0.val) s.clients u0.rs (some u0.ws)).1 }
      hk1
    constructor
    · simp only [List.map_cons, runServer, hstep]
      rw [ih.1]
      rfl
    · intro u hu
      cases rest with
      | nil =>
        simp only [List.getLast?_singleton, Option.some.injEq] at hu
        subst hu
        simp only [List.map_cons, List.map_nil, runServer, hstep]
        exact lookupField_setField_self s.currentData f u0.val hk
      | cons r rest2 =>
        rw [List.getLast?_cons_cons] at hu
        have hlast := ih.2 u hu
        simp only [List.map_cons, runServer, hstep]
        simpa using hlast

/-- C1: for every sequence of valid update messages for a known field
received by the authority, the stored value for that field after processing
equals the value of the last accepted update (last-write-wins), and each
accepted update triggers exactly one broadcast call excluding the
originating connection. -/
theorem server_last_write_wins (s : ServerState) (f : String) (us : List UpdReq)
    (u : UpdReq) (hk : hasOwnProperty s.currentData f = true)
    (hl : us.getLast? = some u) :
    lookupField (runServer s (us.map (updEvent f))).1.currentData f = some u.val
    ∧ (runServer s (us.map (updEvent f))).2 =
        us.map (fun w => OutEvent.broadcastCall (WireMsg.update f w.val) (some w.ws)) := by
  obtain ⟨h1, h2⟩ := runServer_updates f us s hk
  exact ⟨h2 u hl, h1⟩

/-- C1 witness: two updates to `amount` from connections 5 and 7 leave the
store at the second value and produce one sender-excluding broadcast call
each. -/
theorem server_last_write_wins_witness :
    lookupField (runServer initialServerState
        (([⟨5, fun _ => wsOPEN, "100"⟩, ⟨7, fun _ => wsOPEN, "250"⟩] : List UpdReq).map
          (updEvent "amount"))).1.currentData "amount" = some "250"
    ∧ (runServer initialServerState
        (([⟨5, fun _ => wsOPEN, "100"⟩, ⟨7, fun _ => wsOPEN, "250"⟩] : List UpdReq).map
          (updEvent "amount"))).2 =
        [OutEvent.broadcastCall (WireMsg.update "amount" "100") (some 5),
         OutEvent.broadcastCall (WireMsg.update "amount" "250") (some 7)] :=
  server_last_write_wins initialServerState "amount"
    [⟨5, fun _ => wsOPEN, "100"⟩, ⟨7, fun _ => wsOPEN, "250"⟩]
    ⟨7, fun _ => wsOPEN, "250"⟩ (by decide) rfl

/-- No event handler ever changes the key set of `currentData`. -/
theorem stepServer_keys (s : ServerState) (e : SEvent) :
    (stepServer s e).1.currentData.map Prod.fst = s.currentData.map Prod.fst := by
  cases e with
  | connect ws ok => rfl
  | message ws rs m =>
    cases m with
    | malformed => rfl
    | other => rfl
    | update field value =>
      simp only [stepServer, handleMessage]
      split
      · exact keys_setField s.currentData field value
      · rfl
  | close ws => rfl
  | error ws => rfl

/-- Over any event sequence, the key set of `currentData` is invariant. -/
theorem runServer_keys (evs : List SEvent) :
    ∀ s : ServerState,
      (runServer s evs).1.currentData.map Prod.fst = s.currentData.map Prod.fst := by
  induction evs with
  | nil => intro s; rfl
  | cons e evs ih =>
    intro s
    simp only [runServer]
    rw [ih (stepServer s e).1, stepServer_keys]

/-- C2: an update naming a field that is not a key of the data object is
rejected — the state (store and registry) is unchanged and no output (in
particular no broadcast) is produced; and over every event sequence from
process start the key set of the store stays exactly `{amount, name}`. -/
theorem unknown_field_rejected (s : ServerState) (ws : Nat) (rs : Nat → Nat)
    (field value : String) (evs : List SEvent)
    (h : hasOwnProperty s.currentData field = false) :
    stepServer s (SEvent.message ws rs (ParsedMsg.update field value)) = (s, [])
    ∧ (runServer initialServerState evs).1.currentData.map Prod.fst =
        ["amount", "name"] := by
  constructor
  · simp [stepServer, handleMessage, h]
  · rw [runServer_keys]
    rfl

/-- C2 witness: an update for the unknown field `currency` leaves the
initial state untouched and produces nothing, and after a connect event the
key set is still `{amount, name}`. -/
theorem unknown_field_rejected_witness :
    stepServer initialServerState
        (SEvent.message 3 (fun _ => wsOPEN) (ParsedMsg.update "currency" "EUR")) =
      (initialServerState, [])
    ∧ (runServer initialServerState [SEvent.connect 3 true]).1.currentData.map
        Prod.fst = ["amount", "name"] :=
  unknown_field_rejected initialServerState 3 (fun _ => wsOPEN) "currency" "EUR"
    [SEvent.connect 3 true] (by decide)

/-- Adding a connection to the registry makes it a member. -/
theorem mem_addClient (cs : List Nat) (c : Nat) : c ∈ addClient cs c := by
  unfold addClient
  split
  · next h => exact List.mem_of_elem_eq_true h
  · exact List.mem_append_right _ (List.mem_singleton_self c)

/-- C3: on a new connection the authority registers it and sends it exactly
one `initial_state` message whose payload is the store snapshot at the
moment of registration; this output precedes everything produced by later
events; and whether or not the send succeeds, the store is untouched and
the connection stays registered. -/
theorem connection_hydration (s : ServerState) (ws : Nat) (ok : Bool)
    (rest : List SEvent) :
    (stepServer s (SEvent.connect ws ok)).2 =
        [OutEvent.sendTo ws (WireMsg.initialState s.currentData)]
    ∧ ws ∈ (stepServer s (SEvent.connect ws ok)).1.clients
    ∧ (stepServer s (SEvent.connect ws ok)).1.currentData = s.currentData
    ∧ (runServer s (SEvent.connect ws ok :: rest)).2 =
        OutEvent.sendTo ws (WireMsg.initialState s.currentData) ::
          (runServer (stepServer s (SEvent.connect ws ok)).1 rest).2 :=
  ⟨rfl, mem_addClient s.clients ws, rfl, rfl⟩

/-- C5: a malformed message, or a well-formed one whose shape is not
update-with-payload, is discarded whole — store and registry unchanged,
no broadcast, nothing sent back to the peer. -/
theorem malformed_discarded (s : ServerState) (ws : Nat) (rs : Nat → Nat) :
    stepServer s (SEvent.message ws rs ParsedMsg.malformed) = (s, [])
    ∧ stepServer s (SEvent.message ws rs ParsedMsg.other) = (s, []) :=
  ⟨rfl, rfl⟩

/-!
Client element lemmas: how `querySelector`-style lookup interacts with the
first-match mutation helper.
-/

/-- Mutating the first element bound to `f` with a field-preserving edit is
visible through a lookup at `f`. -/
theorem lookupElem_updateFirst (g : FieldElem → FieldElem)
    (hg : ∀ x, (g x).field = x.field) (elems : List FieldElem) (f : String) :
    lookupElem (updateFirst g elems f) f = (lookupElem elems f).map g := by
  induction elems with
  | nil => rfl
  | cons e es ih =>
    by_cases h : e.field = f
    · have h1 : updateFirst g (e :: es) f = g e :: es := by
        simp only [updateFirst]; rw [if_pos (by simp [h])]
      rw [h1, lookupElem, lookupElem,
          List.find?_cons_of_pos _ (by simp [hg, h]),
          List.find?_cons_of_pos _ (by simp [h])]
      rfl
    · have h1 : updateFirst g (e :: es) f = e :: updateFirst g es f := by
        simp only [updateFirst]; rw [if_neg (by simp [h])]
      rw [h1, lookupElem, lookupElem,
          List.find?_cons_of_neg _ (by simp [hg, h]),
          List.find?_cons_of_neg _ (by simp [h])]
      exact ih

/-- Mutating the first element bound to another field does not change what a
lookup at `f` sees. -/
theorem lookupElem_updateFirst_ne (g : FieldElem → FieldElem)
    (hg : ∀ x, (g x).field = x.field) (elems : List FieldElem) (gf f : String)
    (hne : gf ≠ f) :
    lookupElem (updateFirst g elems gf) f = lookupElem elems f := by
  induction elems with
  | nil => rfl
  | cons e es ih =>
    by_cases h : e.field = gf
    · have h1 : updateFirst g (e :: es) gf = g e :: es := by
        simp only [updateFirst]; rw [if_pos (by simp [h])]
      rw [h1, lookupElem, lookupElem,
          List.find?_cons_of_neg _ (by simp [hg, h, hne]),
          List.find?_cons_of_neg _ (by simp [h, hne])]
    · have h1 : updateFirst g (e :: es) gf = e :: updateFirst g es gf := by
        simp only [updateFirst]; rw [if_neg (by simp [h])]
      by_cases h2 : e.field = f
      · rw [h1, lookupElem, lookupElem,
            List.find?_cons_of_pos _ (by simp [h2]),
            List.find?_cons_of_pos _ (by simp [h2])]
      · rw [h1, lookupElem, lookupElem,
            List.find?_cons_of_neg _ (by simp [h2]),
            List.find?_cons_of_neg _ (by simp [h2])]
        exact ih

/-- When the edit fixes the element the lookup finds, the first-match
mutation is the identity on the document. -/
theorem updateFirst_of_found (g : FieldElem → FieldElem) (elems : List FieldElem)
    (f : String) (e : FieldElem) (he : lookupElem elems f = some e)
    (hfix : g e = e) :
    updateFirst g elems f = elems := by
  induction elems with
  | nil => simp [lookupElem] at he
  | cons a es ih =>
    by_cases h : a.field = f
    · have hea : e = a := by
        rw [lookupElem, List.find?_cons_of_pos _ (by simp [h])] at he
        exact (Option.some.inj he).symm
      have hga : g a = a := by rw [← hea]; exact hfix
      simp only [updateFirst]
      rw [if_pos (by simp [h]), hga]
    · have he2 : lookupElem es f = some e := by
        rw [lookupElem, List.find?_cons_of_neg _ (by simp [h])] at he
        exact he
      simp only [updateFirst]
      rw [if_neg (by simp [h]), ih he2]

/-- Unfolding of the hydration fold, one payload entry at a time. -/
theorem applyInitialState_cons (elems : List FieldElem) (kv : String × String)
    (rest : List (String × String)) :
    applyInitialState elems (kv :: rest) =
      applyInitialState (updateFirst (fun e => { e with text := kv.2 }) elems kv.1)
        rest := rfl

/-- Hydration entries whose field is not `f` leave the lookup at `f`
unchanged. -/
theorem lookupElem_applyInitialState_not_mem :
    ∀ (payload : List (String × String)) (elems : List FieldElem) (f : String),
      f ∉ payload.map Prod.fst →
      lookupElem (applyInitialState elems payload) f = lookupElem elems f
  | [], _, _, _ => rfl
  | kv :: rest, elems, f, hf => by
    simp only [List.map_cons, List.mem_cons] at hf
    push_neg at hf
    rw [applyInitialState_cons,
        lookupElem_applyInitialState_not_mem rest _ f hf.2,
        lookupElem_updateFirst_ne (fun e => { e with text := kv.2 })
          (fun x => rfl) elems kv.1 f (Ne.symm hf.1)]

/-- C6: an incoming update for a field whose element is in editing state
leaves the whole document unchanged; the same update arriving once the
element is idle, with a differing displayed value, writes the value into
that element. -/
theorem client_update_reconciliation (elems : List FieldElem) (f v : String)
    (e : FieldElem) (he : lookupElem elems f = some e) :
    (e.editable = true → applyUpdate elems f v = elems)
    ∧ (e.editable = false → e.text ≠ v →
        lookupElem (applyUpdate elems f v) f = some { e with text := v }) := by
  have hg : ∀ x : FieldElem,
      ((if x.text ≠ v ∧ x.editable = false then { x with text := v } else x) :
        FieldElem).field = x.field := by
    intro x
    by_cases hx : x.text ≠ v ∧ x.editable = false <;> simp [hx]
  constructor
  · intro hed
    unfold applyUpdate
    apply updateFirst_of_found _ _ _ e he
    simp [hed]
  · intro hed hne
    unfold applyUpdate
    rw [lookupElem_updateFirst _ hg elems f, he]
    simp [hne, hed]

/-- C6 witness: an update for `amount` is suppressed while the element is
editing and applied after it returns to idle. -/
theorem client_update_reconciliation_witness :
    applyUpdate [⟨"amount", "100", true⟩] "amount" "250" =
        [⟨"amount", "100", true⟩]
    ∧ lookupElem (applyUpdate [⟨"amount", "100", false⟩] "amount" "250")
        "amount" = some ⟨"amount", "250", false⟩ :=
  ⟨(client_update_reconciliation [⟨"amount", "100", true⟩] "amount" "250"
      ⟨"amount", "100", true⟩ (by decide)).1 rfl,
   (client_update_reconciliation [⟨"amount", "100", false⟩] "amount" "250"
      ⟨"amount", "100", false⟩ (by decide)).2 rfl (by decide)⟩

/-- C7: hydration writes every payload entry that has a bound element into
that element unconditionally — the element's text becomes the payload value
while its editing flag (in particular `editing = true`) is untouched. -/
theorem client_hydration_overwrites :
    ∀ (payload : List (String × String)) (elems : List FieldElem)
      (f v : String) (e : FieldElem),
      (payload.map Prod.fst).Nodup → (f, v) ∈ payload →
      lookupElem elems f = some e →
      lookupElem (applyInitialState elems payload) f = some { e with text := v }
  | [], _, _, _, _, _, hmem, _ => absurd hmem (List.not_mem_nil _)
  | kv :: rest, elems, f, v, e, hnd, hmem, he => by
    rw [List.map_cons, List.nodup_cons] at hnd
    rcases List.mem_cons.mp hmem with heq | hmem2
    · cases heq.symm
      rw [applyInitialState_cons,
          lookupElem_applyInitialState_not_mem rest _ f (by simpa using hnd.1),
          lookupElem_updateFirst (fun e => { e with text := (f, v).2 })
            (fun x => rfl) elems f, he]
      rfl
    · have hne : kv.1 ≠ f := by
        intro hEq
        apply hnd.1
        rw [hEq]
        exact List.mem_map_of_mem Prod.fst hmem2
      rw [applyInitialState_cons]
      exact client_hydration_overwrites rest _ f v e hnd.2 hmem2
        (by rw [lookupElem_updateFirst_ne (fun e => { e with text := kv.2 })
                  (fun x => rfl) elems kv.1 f hne]
            exact he)

/-- C7 witness: hydration overwrites `amount` even though its element is in
editing state. -/
theorem client_hydration_overwrites_witness :
    lookupElem
        (applyInitialState [⟨"amount", "100", true⟩, ⟨"name", "Bob", false⟩]
          [("amount", "250"), ("name", "Alice")]) "amount" =
      some ⟨"amount", "250", true⟩ :=
  client_hydration_overwrites [("amount", "250"), ("name", "Alice")]
    [⟨"amount", "100", true⟩, ⟨"name", "Bob", false⟩] "amount" "250"
    ⟨"amount", "100", true⟩ (by decide) (by decide) (by decide)

/-- C8 counterexample: the claim says a commit whose new displayed text
equals the value captured at edit start sends no wire message. But
`finishEditing` compares the TRIMMED text against the untrimmed
`originalEditValue`: with displayed text and captured original both equal to
the whitespace-padded string, the trimmed text differs from the original,
so on a connected channel an update message IS sent. -/
theorem finishEditing_claim_counterexample :
    (" x " : String) = " x "
    ∧ (finishEditing "amount" " x " true " x " true).sent = some ("amount", "x") :=
  ⟨rfl, by decide⟩

/-- C8 (amended): on commit of a local edit, if the TRIMMED new displayed
text is empty or equals the captured `originalEditValue`, no wire message is
sent and the display equals `originalEditValue` afterwards; if the trimmed
text changed but the channel is not connected, no wire message is sent and
the display reverts to `originalEditValue`; a wire message is produced only
for a trimmed changed value on a connected channel, and it carries the
trimmed text. -/
theorem finishEditing_commit_spec (field text orig : String) (wsOpen : Bool) :
    ((jsTrim text = "" ∨ jsTrim text = orig) →
        (finishEditing field text true orig wsOpen).sent = none
        ∧ (finishEditing field text true orig wsOpen).text = orig)
    ∧ (¬(jsTrim text = "" ∨ jsTrim text = orig) → wsOpen = false →
        (finishEditing field text true orig wsOpen).sent = none
        ∧ (finishEditing field text true orig wsOpen).text = orig)
    ∧ (∀ p, (finishEditing field text true orig wsOpen).sent = some p →
        ¬(jsTrim text = "" ∨ jsTrim text = orig) ∧ wsOpen = true
        ∧ p = (field, jsTrim text)) := by
  unfold finishEditing
  by_cases h : jsTrim text = "" ∨ jsTrim text = orig
  · simp [h]
  · cases wsOpen <;> simp [h]

/-- C8 amended witness: an unchanged value sends nothing and keeps the
original; a changed value on a disconnected channel reverts and sends
nothing. -/
theorem finishEditing_commit_spec_witness :
    ((finishEditing "amount" "100" true "100" true).sent = none
      ∧ (finishEditing "amount" "100" true "100" true).text = "100")
    ∧ ((finishEditing "amount" "250" true "100" false).sent = none
      ∧ (finishEditing "amount" "250" true "100" false).text = "100") :=
  ⟨(finishEditing_commit_spec "amount" "100" "100" true).1 (Or.inr (by decide)),
   (finishEditing_commit_spec "amount" "250" "100" false).2.1 (by decide) rfl⟩

/-- C9 counterexample: `originalEditValue` is one client-global variable,
not per-field state. Start editing `amount` (displaying "100"), then start
editing `name` (displaying "Bob") — which overwrites the shared capture —
then cancel the `amount` edit: `amount` is restored to "Bob", not to the
"100" captured at its own edit start. -/
theorem editSession_per_field_counterexample :
    (lookupElem ([⟨"amount", "100", false⟩, ⟨"name", "Bob", false⟩] :
        List FieldElem) "amount").map FieldElem.text = some "100"
    ∧ (lookupElem (runClient
          { elems := [⟨"amount", "100", false⟩, ⟨"name", "Bob", false⟩],
            originalEditValue := "", wsOpen := true }
          [CEvent.dblclick "amount", CEvent.dblclick "name",
           CEvent.escape "amount"]).elems "amount").map FieldElem.text =
        some "Bob"
    ∧ ("Bob" : String) ≠ "100" := by
  refine ⟨rfl, ?_, by decide⟩
  decide

/-- C9 (amended): the client has a single shared `originalEditValue`
overwritten at every edit start; a cancel while a field is editing restores
the value most recently captured by ANY field's edit start — so a field's
cancel restores its own pre-edit value exactly when no other edit start
intervened, as in the start-then-cancel sequence proved here. -/
theorem cancel_restores_global_original (s : ClientState) (f : String)
    (e : FieldElem) (he : lookupElem s.elems f = some e) :
    (e.editable = true →
      (lookupElem (cancelEdit s f).elems f).map FieldElem.text =
        some s.originalEditValue)
    ∧ (e.editable = false → s.wsOpen = true →
      (lookupElem (runClient s [CEvent.dblclick f, CEvent.escape f]).elems
          f).map FieldElem.text = some e.text) := by
  constructor
  · intro hed
    have hc : (cancelEdit s f).elems =
        updateFirst
          (fun x => { x with text := s.originalEditValue, editable := false })
          s.elems f := by
      unfold cancelEdit
      rw [he]
      simp [hed]
    rw [hc, lookupElem_updateFirst
          (fun x => { x with text := s.originalEditValue, editable := false })
          (fun x => rfl) s.elems f, he]
    rfl
  · intro hed hws
    have hstart : startEdit s f =
        { s with
          originalEditValue := e.text,
          elems := updateFirst (fun x => { x with editable := true }) s.elems f } := by
      unfold startEdit
      rw [he]
      simp [hed, hws]
    have hlook : lookupElem (startEdit s f).elems f =
        some { e with editable := true } := by
      rw [hstart, lookupElem_updateFirst (fun x => { x with editable := true })
            (fun x => rfl) s.elems f, he]
      rfl
    have hcancel : (cancelEdit (startEdit s f) f).elems =
        updateFirst
          (fun x =>
            { x with text := (startEdit s f).originalEditValue,
                     editable := false })
          (startEdit s f).elems f := by
      unfold cancelEdit
      rw [hlook]
      simp
    show (lookupElem (cancelEdit (startEdit s f) f).elems f).map FieldElem.text
        = some e.text
    rw [hcancel, lookupElem_updateFirst
          (fun x =>
            { x with text := (startEdit s f).originalEditValue,
                     editable := false })
          (fun x => rfl) (startEdit s f).elems f, hlook, hstart]
    rfl

/-- C9 amended witness: a start-then-cancel on one field with no
intervening edit start restores that field's own pre-edit text. -/
theorem cancel_restores_global_original_witness :
    (lookupElem (runClient
        { elems := [⟨"amount", "100", false⟩], originalEditValue := "",
          wsOpen := true }
        [CEvent.dblclick "amount", CEvent.escape "amount"]).elems
      "amount").map FieldElem.text = some "100" :=
  (cancel_restores_global_original
    { elems := [⟨"amount", "100", false⟩], originalEditValue := "",
      wsOpen := true } "amount" ⟨"amount", "100", false⟩ (by decide)).2 rfl rfl
